import Mathlib

/-!
Verification of the gmail-label-counts utility (src/gmail-label-counts.js).

The source is a Node.js script that enumerates inbox threads, resolves each
thread's label set either from a per-thread file cache or from the remote
API, counts label occurrences, and renders a sorted report.  This file is a
shallow embedding of that script: the file-system cache is an association
list from thread id to the parsed content of its cache file, the remote API
is a parameter (a function from thread id to a fetch result), JavaScript
exceptions are `Except`, and the asynchronous phases - which contain no
interleaving that the counted results depend on - are modelled sequentially.
-/

namespace GmailLabelCounts

/-- A JavaScript runtime error crossing a function boundary:
`typeError` models a TypeError (property access on null/undefined),
`parseError` models the exception JSON.parse throws on malformed data. -/
inductive JsError where
  | typeError
  | parseError
deriving DecidableEq, Repr

/-- The value found under the `labelIds` key of a parsed cache file:
either a genuine array of label-id strings, or any non-array value
(including a missing key, i.e. `undefined`). -/
inductive JsLabels where
  | arr (ls : List String)
  | notArray
deriving DecidableEq, Repr

/-- A parsed per-thread cache record `{ labelIds, cachedAt }`. -/
structure RawEntry where
  labelIds : JsLabels
  cachedAt : String
deriving DecidableEq, Repr

/-- The on-disk content of one per-thread cache file: either text that
JSON.parse rejects, or a parsed record. -/
inductive CacheFile where
  | malformed
  | parsed (e : RawEntry)
deriving DecidableEq, Repr

/-- The cache directory: one file per thread id.  `writeFileSync` overwrites,
so insertion replaces any previous binding for the same id. -/
abbrev Store := List (String × CacheFile)

/-- Look up the cache file for a thread id (`fs.existsSync` + read). -/
def Store.get (s : Store) (id : String) : Option CacheFile :=
  (s.find? (fun p => p.1 == id)).map Prod.snd

/-- Overwrite the cache file for a thread id (`fs.writeFileSync`). -/
def Store.set (s : Store) (id : String) (f : CacheFile) : Store :=
  (id, f) :: s.filter (fun p => p.1 != id)

/-- Delete the cache file for a thread id (`fs.unlinkSync`). -/
def Store.erase (s : Store) (id : String) : Store :=
  s.filter (fun p => p.1 != id)

/-- `getCachedThread(threadId)` from the source: if the file exists, its
content is passed to JSON.parse with no try/catch, so malformed data makes
the function itself throw; a missing file yields `null`. -/
def getCachedThread (s : Store) (id : String) : Except JsError (Option RawEntry) :=
  match Store.get s id with
  | none => .ok none
  | some .malformed => .error .parseError
  | some (.parsed e) => .ok (some e)

/-- The `data` argument of `saveCachedThread`: JavaScript `null`,
`undefined`, or an object carrying a `labelIds` field and a `cachedAt`
field. -/
inductive JsData where
  | jsNull
  | jsUndefined
  | obj (labelIds : JsLabels) (cachedAt : String)
deriving DecidableEq, Repr

/-- Result of a completed (non-throwing) `saveCachedThread` call: the store
afterwards and whether the skip warning was printed. -/
structure SaveOutcome where
  store : Store
  warned : Bool
deriving DecidableEq, Repr

/-- `saveCachedThread(threadId, data)` from the source: reading
`data.labelIds` on `null`/`undefined` throws a TypeError; a non-array
`labelIds` is skipped with a warning and the store is left unchanged; an
array is written to the thread's cache file. -/
def saveCachedThread (s : Store) (id : String) (data : JsData) : Except JsError SaveOutcome :=
  match data with
  | .jsNull => .error .typeError
  | .jsUndefined => .error .typeError
  | .obj labelIds cachedAt =>
    match labelIds with
    | .arr ls => .ok ⟨Store.set s id (.parsed ⟨.arr ls, cachedAt⟩), false⟩
    | .notArray => .ok ⟨s, true⟩

/-- `isStableThread(labelIds)` from the source (the distributed "test
version"): true exactly when the list is non-empty. -/
def isStableThread (labelIds : List String) : Bool :=
  decide (labelIds.length > 0)

/-- One remote `users.threads.get` response as `safeGetThread` observes it:
success carries `res.data.messages[0].labelIds` (possibly undefined), and
failure carries `err?.response?.status` (`none` when the thrown error has no
HTTP status). -/
inductive Resp where
  | ok (labelIds : Option (List String))
  | err (status : Option Nat)
deriving DecidableEq, Repr

/-- What one `safeGetThread` call performs: its final result, the backoff
delays (in ms) slept before each retry, and the number of attempts made. -/
structure FetchOutcome where
  result : Except (Option Nat) (Option (List String))
  delays : List Nat
  attempts : Nat
deriving Repr

/-- `safeGetThread(gmail, id, retries)` from the source, run against a
stream of responses indexed by attempt number: a failure with status 429
while retries remain sleeps `1000 * (4 - retries)` ms and recurses with one
retry fewer; any other failure, or a 429 with the budget exhausted, rethrows
immediately. -/
def safeGetThread (responses : Nat → Resp) : (k retries : Nat) → FetchOutcome
  | k, 0 =>
    match responses k with
    | .ok d => ⟨.ok d, [], 1⟩
    | .err s => ⟨.error s, [], 1⟩
  | k, r + 1 =>
    match responses k with
    | .ok d => ⟨.ok d, [], 1⟩
    | .err s =>
      if s = some 429 then
        let rest := safeGetThread responses (k + 1) r
        ⟨rest.result, 1000 * (4 - (r + 1)) :: rest.delays, rest.attempts + 1⟩
      else ⟨.error s, [], 1⟩

/-- Accumulator of the Phase-1 cache scan of `listInboxLabelCounts`:
the cache directory, the results pushed for cache-trusted threads, the ids
queued for fetching, and the two progress counters. -/
structure ScanAcc where
  store : Store
  cached : List (String × List String)
  toFetch : List String
  validCached : Nat
  invalidOrMissing : Nat
deriving DecidableEq, Repr

/-- One iteration of the Phase-1 scan, for one working-set thread id: a
cached array of labels is either deleted (id not in the working set),
pushed as a cache-trusted result (stable), or queued for fetch (unstable);
an absent, non-array or unparsable cache entry (the try/catch around
`getCachedThread`) queues the id for fetch and counts it invalid/missing. -/
def scanThread (threads : List String) (acc : ScanAcc) (id : String) : ScanAcc :=
  match getCachedThread acc.store id with
  | .ok (some ⟨.arr ls, _⟩) =>
    if threads.contains id then
      if isStableThread ls then
        { acc with cached := acc.cached ++ [(id, ls)], validCached := acc.validCached + 1 }
      else
        { acc with toFetch := acc.toFetch ++ [id] }
    else
      { acc with store := Store.erase acc.store id }
  | _ => { acc with toFetch := acc.toFetch ++ [id],
                    invalidOrMissing := acc.invalidOrMissing + 1 }

/-- Phase 1 of `listInboxLabelCounts`: scan the cache for every working-set
thread.  The async callbacks of the `Promise.all` contain no await, so they
run to completion in list order. -/
def scanPhase (store : Store) (threads : List String) : ScanAcc :=
  threads.foldl (scanThread threads) ⟨store, [], [], 0, 0⟩

/-- Accumulator of the Phase-2 fetch loop: the cache directory, the results
pushed for freshly fetched threads (carrying label names, not ids), and the
`fetched` progress counter. -/
structure FetchAcc where
  store : Store
  fetched : List (String × List String)
  fetchCount : Nat
deriving DecidableEq, Repr

/-- Phase 2 of `listInboxLabelCounts`, over the ids queued by the scan: each
id is fetched (`safeGetThread`'s result is the `fetcher` parameter), its
labels (`|| []`) written back through `saveCachedThread`, and a result
carrying the labels mapped through `labelIdToName` is pushed (a missing
binding maps to the string JavaScript coerces `undefined` to as an object
key).  A fetch failure rejects the whole `Promise.all`, so it propagates.
The p-limit(3) pool only bounds parallelism; the per-thread effects are
modelled in queue order. -/
def fetchPhase (fetcher : String → Except (Option Nat) (Option (List String)))
    (labelIdToName : String → Option String) (now : String) :
    List String → FetchAcc → Except (Option Nat) FetchAcc
  | [], acc => .ok acc
  | id :: rest, acc =>
    match fetcher id with
    | .error e => .error e
    | .ok oLs =>
      let labelIds := oLs.getD []
      match saveCachedThread acc.store id (.obj (.arr labelIds) now) with
      | .error _ => .error none
      | .ok so =>
        fetchPhase fetcher labelIdToName now rest
          ⟨so.store,
           acc.fetched ++ [(id, labelIds.map (fun l => (labelIdToName l).getD "undefined"))],
           acc.fetchCount + 1⟩

/-- One element of `labelResults`: Phase 3 reads `t.labelIds` for cached
entries and `t.labelNames` for fetched ones, so `labels` holds label ids
when `fromCache` is true and label names otherwise. -/
structure LabelResult where
  id : String
  labels : List String
  fromCache : Bool
deriving DecidableEq, Repr

/-- Phase 3 of `listInboxLabelCounts`: the sequence of label occurrences
counted into `labelCounts` - every label except the literal "INBOX", from
every result whose id is in the working set. -/
def countOccs (threads : List String) (results : List LabelResult) : List String :=
  (results.filter (fun r => threads.contains r.id)).flatMap
    (fun r => r.labels.filter (fun l => l != "INBOX"))

/-- The Label Count Table derived from the counted occurrences. -/
def tableOf (occs : List String) (l : String) : Nat := occs.count l

/-- The observable outcome of one aggregation run: the counted label
occurrences, the cache directory afterwards, and how many threads were
fetched from the API. -/
structure RunResult where
  occs : List String
  store : Store
  fetchCount : Nat
deriving DecidableEq, Repr

/-- `listInboxLabelCounts` from the source (the cache/fetch/count pipeline),
over an initial cache directory, the working set of thread ids, the remote
fetcher, and the id-to-name label map loaded by `loadLabelMaps`. -/
def listInboxLabelCounts (store : Store) (threads : List String)
    (fetcher : String → Except (Option Nat) (Option (List String)))
    (labelIdToName : String → Option String) (now : String) :
    Except (Option Nat) RunResult :=
  let scan := scanPhase store threads
  match fetchPhase fetcher labelIdToName now scan.toFetch ⟨scan.store, [], 0⟩ with
  | .error e => .error e
  | .ok f =>
    let results :=
      scan.cached.map (fun p => LabelResult.mk p.1 p.2 true) ++
      f.fetched.map (fun p => LabelResult.mk p.1 p.2 false)
    .ok ⟨countOccs threads results, f.store, f.fetchCount⟩

/-- One `users.threads.list` request issued by `getInboxThreads`: the query
and the page-size bound it passes. -/
structure ListReq where
  q : String
  maxResults : Nat
deriving DecidableEq, Repr

/-- The do/while pagination loop of `getInboxThreads`, over the successive
pages the remote returns (the last page carrying no `nextPageToken`): it
returns the concatenated thread ids and the requests issued.  The loop body
runs at least once, so an empty page sequence still issues one request. -/
def listPages : List (List String) → List String × List ListReq
  | [] => ([], [⟨"label:inbox", 100⟩])
  | [p] => (p, [⟨"label:inbox", 100⟩])
  | p :: q :: rest =>
    let t := listPages (q :: rest)
    (p ++ t.1, ⟨"label:inbox", 100⟩ :: t.2)

/-- The observable outcome of `getInboxThreads`: the working-set ids it
returns, the list requests it issued, and the thread-ID cache afterwards. -/
structure EnumResult where
  ids : List String
  reqs : List ListReq
  cacheAfter : Option (List String)
deriving DecidableEq, Repr

/-- `getInboxThreads` from the source: `cache` is what
`getCachedInboxThreadIds` returned (`none` for a missing or unparsable
file), and `cacheAfter` is the thread-ID cache after the call
(`saveCachedInboxThreadIds` runs only on the enumeration path). -/
def getInboxThreads (cache : Option (List String)) (pages : List (List String)) : EnumResult :=
  match cache with
  | some ids => ⟨ids, [], some ids⟩
  | none =>
    let t := listPages pages
    ⟨t.1, t.2, some t.1⟩

/-- `String.prototype.padEnd(n)`: pad with spaces up to length `n`. -/
def padEnd (s : String) (n : Nat) : String :=
  s ++ String.mk (List.replicate (n - s.length) ' ')

/-- The name a label id is rendered with in the final report: its bound
name, or the missing-name placeholder. -/
def labelDisplay (labelIdToName : String → Option String) (id : String) : String :=
  match labelIdToName id with
  | some n => n
  | none => "(missing name: " ++ id ++ ")"

/-- One rendered report row: the display name padded to 30 columns, then
the count. -/
def renderRow (labelIdToName : String → Option String) (id : String) (count : Nat) : String :=
  padEnd (labelDisplay labelIdToName id) 30 ++ toString count

/-- The sort comparator of the final report: compares the bound names
(`|| ''` for missing ones) and warns, at each invocation, for each side
whose name binding is missing.  `localeCompare` is modelled by the string
order; no claim depends on the resulting order itself. -/
def compareRows (labelIdToName : String → Option String) (a b : String) :
    Bool × List String :=
  (decide ((labelIdToName a).getD "" ≤ (labelIdToName b).getD ""),
   (if (labelIdToName a).isSome then [] else [a]) ++
     (if (labelIdToName b).isSome then [] else [b]))

/-- Insert one table row into a sorted run of rows, recording the warnings
each comparator invocation emits. -/
def insertRow (labelIdToName : String → Option String) (x : String × Nat) :
    List (String × Nat) → List (String × Nat) × List String
  | [] => ([x], [])
  | y :: ys =>
    let c := compareRows labelIdToName x.1 y.1
    if c.1 then (x :: y :: ys, c.2)
    else
      let t := insertRow labelIdToName x ys
      (y :: t.1, c.2 ++ t.2)

/-- Sort the table rows with the warning-logging comparator (a stable sort
standing in for `Array.prototype.sort`; a single-row table is compared zero
times under any sort). -/
def sortRows (labelIdToName : String → Option String) :
    List (String × Nat) → List (String × Nat) × List String
  | [] => ([], [])
  | x :: xs =>
    let s := sortRows labelIdToName xs
    let t := insertRow labelIdToName x s.1
    (t.1, s.2 ++ t.2)

/-- The final-output block of `listInboxLabelCounts`: sort the Label Count
Table entries with the warning comparator, then render each row. -/
def renderReport (labelIdToName : String → Option String) (table : List (String × Nat)) :
    List String × List String :=
  let s := sortRows labelIdToName table
  (s.1.map (fun p => renderRow labelIdToName p.1 p.2), s.2)

/-- The classification Phase 1 applies to a working-set thread id: `some ls`
when its cache file parses to an array `ls` that the stability predicate
trusts, `none` when the thread must be fetched. -/
def trustedLabels (store : Store) (id : String) : Option (List String) :=
  match getCachedThread store id with
  | .ok (some ⟨.arr ls, _⟩) => if isStableThread ls then some ls else none
  | _ => none

/-- The labels Phase 2 obtains for a fetched thread
(`full.data.messages[0].labelIds || []`). -/
def fetchedLabels (fetcher : String → Except (Option Nat) (Option (List String)))
    (id : String) : List String :=
  match fetcher id with
  | .ok o => o.getD []
  | .error _ => []

/-- The cache directory after Phase 2 has written back every queued thread. -/
def writeFetched (fetcher : String → Except (Option Nat) (Option (List String)))
    (now : String) (store : Store) (l : List String) : Store :=
  l.foldl (fun s id => Store.set s id (.parsed ⟨.arr (fetchedLabels fetcher id), now⟩)) store

/-- The labels one run attributes to a working-set thread: its trusted
cached labels when Phase 1 trusts the cache, the fetched labels
otherwise. -/
def runLabels (store : Store)
    (fetcher : String → Except (Option Nat) (Option (List String))) (i : String) :
    List String :=
  match trustedLabels store i with
  | some ls => ls
  | none => fetchedLabels fetcher i

end GmailLabelCounts

open GmailLabelCounts

/-- C5: for every thread id and every entry object whose `labelIds` field is
not a valid array, `saveCachedThread` is a no-op: the store is returned
unchanged, no exception is raised, and the skip warning is emitted. -/
theorem c5_save_rejects_non_array (s : Store) (id : String) (cachedAt : String) :
    saveCachedThread s id (.obj .notArray cachedAt) = .ok ⟨s, true⟩ := rfl

/-- C6: the distributed stability predicate holds exactly on non-empty label
lists: `isStableThread [] = false`, `isStableThread` of any cons is `true`,
and in general it equals the non-emptiness test. -/
theorem c6_isStable_nonempty :
    isStableThread [] = false ∧ (∀ l ls, isStableThread (l :: ls) = true) ∧
      ∀ L, isStableThread L = !L.isEmpty := by
  refine ⟨rfl, fun l ls => by simp [isStableThread], fun L => ?_⟩
  cases L <;> simp [isStableThread]

/-- C10: calling `saveCachedThread` with `null` or `undefined` instead of an
object raises a TypeError (the property access `data.labelIds` fails) rather
than taking the warn-and-return path, while any object argument - whatever
its `labelIds` field holds - completes without raising. -/
theorem c10_save_null_raises (s : Store) (id : String) :
    saveCachedThread s id .jsNull = .error .typeError ∧
    saveCachedThread s id .jsUndefined = .error .typeError ∧
    ∀ labelIds cachedAt, ∃ out, saveCachedThread s id (.obj labelIds cachedAt) = .ok out := by
  refine ⟨rfl, rfl, fun labelIds cachedAt => ?_⟩
  cases labelIds
  · exact ⟨_, rfl⟩
  · exact ⟨_, rfl⟩

/-- C1 counterexample: the claim's scenario (t1 cached with
["INBOX","L_A"] and trusted, t2 uncached, the fetch for t2 returning
["INBOX","L_B"]) run with a label map that binds L_B to the name
"Label B".  Phase 3 counts freshly fetched threads by label NAME (their
result carries `labelNames`), so the run's table maps "Label B" to 1 and
L_B to 0, not L_B to 1 as the claim states. -/
theorem c1_counterexample :
    listInboxLabelCounts [("t1", .parsed ⟨.arr ["INBOX", "L_A"], "t0"⟩)] ["t1", "t2"]
        (fun id => if id = "t2" then .ok (some ["INBOX", "L_B"]) else .error none)
        (fun i => if i = "L_B" then some "Label B" else some i) "now" =
      .ok ⟨["L_A", "Label B"],
        [("t2", .parsed ⟨.arr ["INBOX", "L_B"], "now"⟩),
         ("t1", .parsed ⟨.arr ["INBOX", "L_A"], "t0"⟩)], 1⟩ ∧
    tableOf ["L_A", "Label B"] "L_B" = 0 ∧ tableOf ["L_A", "Label B"] "L_A" = 1 :=
  ⟨rfl, rfl, rfl⟩

/-- C1 (amended): in the claim's scenario - working set [t1, t2], t1 cached
with labelIds ["INBOX","L_A"] and hence cache-trusted, t2 uncached, the
remote fetch for t2 returning ["INBOX","L_B"] - and with `labelIdToName`
binding each involved label id to itself (cached threads are counted by
label id but fetched threads by label name, so this is needed for the
stated table), the run counts exactly one occurrence of L_A and one of
L_B, the INBOX marker is excluded, and afterwards t2 has a cache entry
whose labelIds equal ["INBOX","L_B"]. -/
theorem c1_scenario_label_counts :
    listInboxLabelCounts [("t1", .parsed ⟨.arr ["INBOX", "L_A"], "t0"⟩)] ["t1", "t2"]
        (fun id => if id = "t2" then .ok (some ["INBOX", "L_B"]) else .error none)
        (fun i => some i) "now" =
      .ok ⟨["L_A", "L_B"],
        [("t2", .parsed ⟨.arr ["INBOX", "L_B"], "now"⟩),
         ("t1", .parsed ⟨.arr ["INBOX", "L_A"], "t0"⟩)], 1⟩ ∧
    tableOf ["L_A", "L_B"] "L_A" = 1 ∧ tableOf ["L_A", "L_B"] "L_B" = 1 ∧
    tableOf ["L_A", "L_B"] "INBOX" = 0 ∧
    Store.get [("t2", .parsed ⟨.arr ["INBOX", "L_B"], "now"⟩),
               ("t1", .parsed ⟨.arr ["INBOX", "L_A"], "t0"⟩)] "t2" =
      some (.parsed ⟨.arr ["INBOX", "L_B"], "now"⟩) :=
  ⟨rfl, rfl, rfl, rfl, rfl⟩

/-- C2: at the failing input - a metadata cache holding an entry for
"t_old", which is absent from the working set ["t1"] - the run completes
with "t_old"'s entry still present in the cache: the eviction branch only
examines ids drawn from the working set itself (for which the
`!inboxThreadIds.has(threadId)` guard is always false), so an entry for a
thread that left the inbox is never deleted.  Its labels do, however,
contribute nothing to the Label Count Table, as the claim says. -/
theorem c2_stale_entry_not_evicted :
    listInboxLabelCounts [("t_old", .parsed ⟨.arr ["INBOX", "X"], "t0"⟩)] ["t1"]
        (fun _ => .ok (some ["INBOX", "L1"])) (fun i => some i) "now" =
      .ok ⟨["L1"],
        [("t1", .parsed ⟨.arr ["INBOX", "L1"], "now"⟩),
         ("t_old", .parsed ⟨.arr ["INBOX", "X"], "t0"⟩)], 1⟩ ∧
    Store.get [("t1", .parsed ⟨.arr ["INBOX", "L1"], "now"⟩),
               ("t_old", .parsed ⟨.arr ["INBOX", "X"], "t0"⟩)] "t_old" =
      some (.parsed ⟨.arr ["INBOX", "X"], "t0"⟩) ∧
    tableOf ["L1"] "X" = 0 :=
  ⟨rfl, rfl, rfl⟩

/-- A fetch failure for any queued thread makes the whole Phase-2
`Promise.all` reject. -/
theorem fetchPhase_error_of_mem
    (fetcher : String → Except (Option Nat) (Option (List String)))
    (labelIdToName : String → Option String) (now : String) (t : String) (e : Option Nat)
    (hf : fetcher t = .error e) :
    ∀ (l : List String) (acc : FetchAcc), t ∈ l →
      ∃ e2, fetchPhase fetcher labelIdToName now l acc = .error e2 := by
  intro l
  induction l with
  | nil => intro acc h; exact absurd h (List.not_mem_nil t)
  | cons id rest ih =>
    intro acc h
    cases hfid : fetcher id with
    | error e1 => exact ⟨e1, by simp [fetchPhase, hfid]⟩
    | ok oLs =>
      have ht : t ∈ rest := by
        rcases List.mem_cons.mp h with h1 | h1
        · subst h1; rw [hf] at hfid; cases hfid
        · exact h1
      obtain ⟨e2, he2⟩ := ih ⟨Store.set acc.store id (.parsed ⟨.arr (oLs.getD []), now⟩),
        acc.fetched ++ [(id, (oLs.getD []).map (fun lab => (labelIdToName lab).getD "undefined"))],
        acc.fetchCount + 1⟩ ht
      exact ⟨e2, by simpa [fetchPhase, hfid, saveCachedThread] using he2⟩

/-- C3 counterexample: a thread whose fetch receives a 429 exactly three
consecutive times (and whose fourth attempt succeeds).  `safeGetThread`
performs its three retries, with delays 1000, 2000, 3000 ms, and then
SUCCEEDS on the fourth attempt - it does not fail, so three consecutive
rate-limit responses alone do not abort the run as the claim states. -/
theorem c3_counterexample :
    safeGetThread (fun k => if k < 3 then .err (some 429) else .ok (some ["INBOX"])) 0 3 =
      ⟨.ok (some ["INBOX"]), [1000, 2000, 3000], 4⟩ := rfl

/-- C3 (amended): when every attempt receives a 429 (so the initial attempt
and all three retries are rate-limited), `safeGetThread` performs exactly 3
retries with non-decreasing delays 1000, 2000, 3000 ms across 4 attempts
and then fails with the 429 error; a non-rate-limit failure propagates
immediately with no retry and no delay; and a fetch failure for a queued
thread propagates out of `listInboxLabelCounts`, aborting the run. -/
theorem c3_retry_behavior
    (responses responses2 : Nat → Resp) (s : Option Nat)
    (store : Store) (threads : List String)
    (fetcher : String → Except (Option Nat) (Option (List String)))
    (labelIdToName : String → Option String) (now : String) (t : String) (e : Option Nat)
    (h429 : ∀ k, responses k = .err (some 429))
    (hs : s ≠ some 429) (h2 : responses2 0 = .err s)
    (ht : t ∈ (scanPhase store threads).toFetch) (hf : fetcher t = .error e) :
    safeGetThread responses 0 3 = ⟨.error (some 429), [1000, 2000, 3000], 4⟩ ∧
    List.Chain' (fun a b => a ≤ b) (safeGetThread responses 0 3).delays ∧
    safeGetThread responses2 0 3 = ⟨.error s, [], 1⟩ ∧
    ∃ e2, listInboxLabelCounts store threads fetcher labelIdToName now = .error e2 := by
  have hmain : safeGetThread responses 0 3 = ⟨.error (some 429), [1000, 2000, 3000], 4⟩ := by
    simp [safeGetThread, h429]
  refine ⟨hmain, ?_, ?_, ?_⟩
  · rw [hmain]
    norm_num [List.chain'_cons, List.chain'_singleton]
  · simp [safeGetThread, h2, hs]
  · obtain ⟨e2, he2⟩ :=
      fetchPhase_error_of_mem fetcher labelIdToName now t e hf (scanPhase store threads).toFetch
        ⟨(scanPhase store threads).store, [], 0⟩ ht
    exact ⟨e2, by simp [listInboxLabelCounts, he2]⟩

/-- Witness for C3: the amended behaviour at concrete inputs - a stream
answering 429 forever, a stream answering 500, and a one-thread run whose
fetcher fails with status 500. -/
theorem c3_retry_behavior_witness :
    safeGetThread (fun _ => .err (some 429)) 0 3 = ⟨.error (some 429), [1000, 2000, 3000], 4⟩ ∧
    List.Chain' (fun a b => a ≤ b) (safeGetThread (fun _ => .err (some 429)) 0 3).delays ∧
    safeGetThread (fun _ => .err (some 500)) 0 3 = ⟨.error (some 500), [], 1⟩ ∧
    ∃ e2, listInboxLabelCounts [] ["t1"] (fun _ => .error (some 500))
      (fun i => some i) "now" = .error e2 :=
  c3_retry_behavior (fun _ => .err (some 429)) (fun _ => .err (some 500)) (some 500)
    [] ["t1"] (fun _ => .error (some 500)) (fun i => some i) "now" "t1" (some 500)
    (fun _ => rfl) (by simp) rfl (by decide) rfl

/-- C4 counterexample: a cache directory whose file for "t1" is malformed.
`getCachedThread` passes the file content to JSON.parse with no try/catch,
so the call raises to its caller instead of returning absent. -/
theorem c4_counterexample :
    getCachedThread [("t1", CacheFile.malformed)] "t1" = .error .parseError := rfl

/-- C4 (amended): `getCachedThread` returns the parsed entry for well-formed
data and absent for a missing file, but on malformed data it raises the
parse exception to its caller (it logs no warning itself); the Phase-1 scan
is that caller and catches the exception, counting the thread as
invalid/missing and queueing it for fetch.  In every case the read returns
an entry, absent, or raises. -/
theorem c4_read_contract (threads : List String) (acc : ScanAcc) (id : String)
    (hm : Store.get acc.store id = some .malformed) :
    getCachedThread acc.store id = .error .parseError ∧
    scanThread threads acc id =
      { acc with toFetch := acc.toFetch ++ [id],
                 invalidOrMissing := acc.invalidOrMissing + 1 } ∧
    ∀ (s : Store) (i : String), getCachedThread s i = .ok none ∨
      getCachedThread s i = .error .parseError ∨ ∃ e, getCachedThread s i = .ok (some e) := by
  refine ⟨by simp [getCachedThread, hm], by simp [scanThread, getCachedThread, hm], ?_⟩
  intro s i
  match h : Store.get s i with
  | none => exact .inl (by simp [getCachedThread, h])
  | some .malformed => exact .inr (.inl (by simp [getCachedThread, h]))
  | some (.parsed e) => exact .inr (.inr ⟨e, by simp [getCachedThread, h]⟩)

/-- Witness for C4: the amended read contract at a concrete malformed
cache file. -/
theorem c4_read_contract_witness :
    getCachedThread [("t1", CacheFile.malformed)] "t1" = .error .parseError ∧
    scanThread ["t1"] ⟨[("t1", CacheFile.malformed)], [], [], 0, 0⟩ "t1" =
      ⟨[("t1", CacheFile.malformed)], [], ["t1"], 0, 1⟩ :=
  ⟨(c4_read_contract ["t1"] ⟨[("t1", CacheFile.malformed)], [], [], 0, 0⟩ "t1" rfl).1,
   (c4_read_contract ["t1"] ⟨[("t1", CacheFile.malformed)], [], [], 0, 0⟩ "t1" rfl).2.1⟩

/-- The pagination loop returns the concatenation of all pages and issues
one fixed `{q: "label:inbox", maxResults: 100}` request per page (at least
one, since the do/while body runs before the token test). -/
theorem listPages_spec (pages : List (List String)) :
    (listPages pages).1 = pages.flatten ∧
    (listPages pages).2 = List.replicate (max 1 pages.length) ⟨"label:inbox", 100⟩ := by
  induction pages with
  | nil => exact ⟨rfl, rfl⟩
  | cons p rest ih =>
    cases rest with
    | nil => exact ⟨by simp [listPages], rfl⟩
    | cons q rs =>
      refine ⟨by simp [listPages, ih.1], ?_⟩
      have h1 : 1 ⊔ (rs.length + 1) = rs.length + 1 := by omega
      have h2 : 1 ⊔ (rs.length + 1 + 1) = rs.length + 1 + 1 := by omega
      simp only [listPages, ih.2, List.length_cons, h1, h2, List.replicate_succ]

/-- C8: when the Thread ID Cache is present, `getInboxThreads` issues no
remote list requests and leaves the cached identifier list unchanged; when
it is absent, it enumerates the inbox page-by-page - every issued request
using the query "label:inbox" with page size 100, following the
continuation token until exhausted - and saves the full concatenated
identifier list to the cache. -/
theorem c8_inbox_enumeration (ids : List String) (pages : List (List String)) :
    getInboxThreads (some ids) pages = ⟨ids, [], some ids⟩ ∧
    (getInboxThreads none pages).ids = pages.flatten ∧
    (getInboxThreads none pages).cacheAfter = some pages.flatten ∧
    (getInboxThreads none pages).reqs =
      List.replicate (max 1 pages.length) ⟨"label:inbox", 100⟩ := by
  have h := listPages_spec pages
  exact ⟨rfl, by simp [getInboxThreads, h.1], by simp [getInboxThreads, h.1],
    by simp [getInboxThreads, h.2]⟩

/-- Inserting a row during the report sort neither adds nor drops rows. -/
theorem insertRow_mem (labelIdToName : String → Option String) (x y : String × Nat) :
    ∀ l : List (String × Nat), y ∈ (insertRow labelIdToName x l).1 ↔ y = x ∨ y ∈ l := by
  intro l
  induction l with
  | nil => simp [insertRow]
  | cons z zs ih =>
    by_cases h : (compareRows labelIdToName x.1 z.1).1
    · simp [insertRow, h, List.mem_cons]
    · simp [insertRow, h, List.mem_cons, ih]
      tauto

/-- The report sort permutes the table rows (membership formulation). -/
theorem sortRows_mem (labelIdToName : String → Option String) (y : String × Nat) :
    ∀ l : List (String × Nat), y ∈ (sortRows labelIdToName l).1 ↔ y ∈ l := by
  intro l
  induction l with
  | nil => simp [sortRows]
  | cons x xs ih => simp [sortRows, insertRow_mem, ih, List.mem_cons]

/-- C9 counterexample: a Label Count Table containing only the unnamed
label L_X.  Rendering shows the missing-name placeholder row for L_X, but
the warning is emitted by the sort COMPARATOR, which is never invoked for a
single-row table, so zero warnings are emitted for L_X - not exactly one
as the claim states. -/
theorem c9_counterexample :
    (renderReport (fun _ => none) [("L_X", 1)]).1 =
      [padEnd "(missing name: L_X)" 30 ++ toString 1] ∧
    ((renderReport (fun _ => none) [("L_X", 1)]).2).count "L_X" = 0 :=
  ⟨rfl, rfl⟩

/-- C9 (amended): for every label id in the Label Count Table that has no
binding in `labelIdToName`, the rendered report contains that label's row
with a placeholder embedding the id; but the missing-name warning is
emitted once per sort-comparator invocation mentioning the id - in
particular zero times for a single-row table - not exactly once. -/
theorem c9_render_placeholder (labelIdToName : String → Option String)
    (table : List (String × Nat)) (id : String) (c : Nat)
    (hmiss : labelIdToName id = none) (hmem : (id, c) ∈ table) :
    padEnd ("(missing name: " ++ id ++ ")") 30 ++ toString c ∈
      (renderReport labelIdToName table).1 ∧
    ∀ (i : String) (cnt : Nat), (renderReport labelIdToName [(i, cnt)]).2 = [] := by
  constructor
  · have hmem2 : (id, c) ∈ (sortRows labelIdToName table).1 :=
      (sortRows_mem labelIdToName (id, c) table).mpr hmem
    have hrow : renderRow labelIdToName id c =
        padEnd ("(missing name: " ++ id ++ ")") 30 ++ toString c := by
      simp [renderRow, labelDisplay, hmiss]
    rw [← hrow]
    simpa [renderReport] using
      List.mem_map_of_mem (fun p => renderRow labelIdToName p.1 p.2) hmem2
  · intro i cnt
    rfl

/-- Witness for C9: the amended placeholder behaviour at the concrete
single-row table for the unnamed label L_X. -/
theorem c9_render_placeholder_witness :
    padEnd ("(missing name: " ++ "L_X" ++ ")") 30 ++ toString 1 ∈
      (renderReport (fun _ => none) [("L_X", 1)]).1 :=
  (c9_render_placeholder (fun _ => none) [("L_X", 1)] "L_X" 1 rfl (by simp)).1

/-- Entries keyed differently from the overwritten id are unaffected by the
filter inside `Store.set`. -/
theorem find_filter_ne (id j : String) (h : j ≠ id) :
    ∀ s : Store, (s.filter (fun p => p.1 != id)).find? (fun p => p.1 == j) =
      s.find? (fun p => p.1 == j) := by
  intro s
  induction s with
  | nil => rfl
  | cons a as ih =>
    have hij : (id == j) = false := by
      simp only [beq_eq_false_iff_ne, ne_eq]
      exact fun hh => h hh.symm
    by_cases ha : a.1 = id
    · have hj : (a.1 == j) = false := by rw [ha]; exact hij
      simp [List.filter_cons, ha, List.find?_cons, hj, hij, ih]
    · by_cases haj : a.1 = j
      · simp [List.filter_cons, ha, List.find?_cons, haj, h, ih]
      · simp [List.filter_cons, ha, List.find?_cons, haj, h, ih]

/-- Overwriting one thread's cache file leaves every other lookup
unchanged. -/
theorem store_get_set (s : Store) (id j : String) (f : CacheFile) :
    Store.get (Store.set s id f) j = if j = id then some f else Store.get s j := by
  by_cases h : j = id
  · subst h
    simp [Store.get, Store.set, List.find?_cons]
  · simp only [Store.get, Store.set, List.find?_cons]
    have hij : (id == j) = false := by
      simp only [beq_eq_false_iff_ne, ne_eq]
      exact fun hh => h hh.symm
    simp [hij, find_filter_ne id j h s, h]

/-- One Phase-1 step, for an id that is in the working set: the store is
untouched, and the id lands in the cached results or the fetch queue
according to its `trustedLabels` classification. -/
theorem scanThread_spec (threads : List String) (acc : ScanAcc) (id : String)
    (hid : threads.contains id = true) :
    (scanThread threads acc id).store = acc.store ∧
    (scanThread threads acc id).cached =
      acc.cached ++ ((trustedLabels acc.store id).map (fun ls => (id, ls))).toList ∧
    (scanThread threads acc id).toFetch =
      acc.toFetch ++ (if (trustedLabels acc.store id).isSome then [] else [id]) := by
  have hmem : id ∈ threads := by simpa using hid
  unfold scanThread trustedLabels
  cases hc : getCachedThread acc.store id with
  | error e => simp
  | ok o =>
    cases o with
    | none => simp
    | some ent =>
      cases ent with
      | mk lf ts =>
        cases lf with
        | arr ls => cases hst : isStableThread ls <;> simp [hmem, hst]
        | notArray => simp

/-- The Phase-1 fold over working-set ids: the store is left unchanged, the
cache-trusted results are the trusted classifications in order, and the
fetch queue collects the untrusted ids in order. -/
theorem scanPhase_fold (threads : List String) :
    ∀ (l : List String) (acc : ScanAcc), (∀ i ∈ l, threads.contains i = true) →
      (l.foldl (scanThread threads) acc).store = acc.store ∧
      (l.foldl (scanThread threads) acc).cached =
        acc.cached ++ l.filterMap (fun i => (trustedLabels acc.store i).map (fun ls => (i, ls))) ∧
      (l.foldl (scanThread threads) acc).toFetch =
        acc.toFetch ++ l.filter (fun i => !(trustedLabels acc.store i).isSome) := by
  intro l
  induction l with
  | nil => intro acc h; simp
  | cons id rest ih =>
    intro acc h
    have hid : threads.contains id = true := h id (List.mem_cons_self id rest)
    have hrest : ∀ i ∈ rest, threads.contains i = true :=
      fun i hi => h i (List.mem_cons_of_mem id hi)
    obtain ⟨hs, hc, hf⟩ := scanThread_spec threads acc id hid
    obtain ⟨ihs, ihc, ihf⟩ := ih (scanThread threads acc id) hrest
    rw [List.foldl_cons]
    refine ⟨by rw [ihs, hs], ?_, ?_⟩
    · rw [ihc, hs, hc]
      cases htr : trustedLabels acc.store id <;>
        simp [htr, List.filterMap_cons]
    · rw [ihf, hs, hf]
      cases htr : trustedLabels acc.store id <;>
        simp [htr, List.filter_cons]

/-- Phase 2 over a queue of threads whose fetches all succeed: every result
is written back, the results carry the name-mapped labels, and the counter
ends at the queue's length. -/
theorem fetchPhase_ok (fetcher : String → Except (Option Nat) (Option (List String)))
    (labelIdToName : String → Option String) (now : String) :
    ∀ l : List String, (∀ i ∈ l, ∃ o, fetcher i = .ok o) → ∀ acc : FetchAcc,
      fetchPhase fetcher labelIdToName now l acc = .ok
        ⟨writeFetched fetcher now acc.store l,
         acc.fetched ++ l.map (fun i =>
           (i, (fetchedLabels fetcher i).map (fun lab => (labelIdToName lab).getD "undefined"))),
         acc.fetchCount + l.length⟩ := by
  intro l
  induction l with
  | nil => intro h acc; simp [fetchPhase, writeFetched]
  | cons id rest ih =>
    intro h acc
    obtain ⟨o, ho⟩ := h id (List.mem_cons_self id rest)
    have hrest : ∀ i ∈ rest, ∃ o2, fetcher i = .ok o2 :=
      fun i hi => h i (List.mem_cons_of_mem id hi)
    have hlab : fetchedLabels fetcher id = o.getD [] := by simp [fetchedLabels, ho]
    have step : fetchPhase fetcher labelIdToName now (id :: rest) acc =
        fetchPhase fetcher labelIdToName now rest
          ⟨Store.set acc.store id (.parsed ⟨.arr (o.getD []), now⟩),
           acc.fetched ++
             [(id, (o.getD []).map (fun lab => (labelIdToName lab).getD "undefined"))],
           acc.fetchCount + 1⟩ := by
      simp [fetchPhase, ho, saveCachedThread]
    rw [step, ih hrest]
    simp only [Except.ok.injEq, FetchAcc.mk.injEq]
    refine ⟨?_, ?_, ?_⟩
    · simp [writeFetched, List.foldl_cons, hlab]
    · simp [hlab]
    · simp [List.length_cons]
      omega

/-- Lookup after Phase 2's write-back: queued ids carry their fetched entry,
all other ids are untouched. -/
theorem writeFetched_get (fetcher : String → Except (Option Nat) (Option (List String)))
    (now : String) :
    ∀ (l : List String) (store : Store) (id : String),
      Store.get (writeFetched fetcher now store l) id =
        if l.contains id then some (.parsed ⟨.arr (fetchedLabels fetcher id), now⟩)
        else Store.get store id := by
  intro l
  induction l with
  | nil => intro store id; simp [writeFetched]
  | cons x rest ih =>
    intro store id
    have hstep : writeFetched fetcher now store (x :: rest) =
        writeFetched fetcher now
          (Store.set store x (.parsed ⟨.arr (fetchedLabels fetcher x), now⟩)) rest := by
      simp [writeFetched, List.foldl_cons]
    rw [hstep, ih]
    by_cases hmem : id ∈ rest
    · simp [hmem]
    · by_cases hx : id = x
      · subst hx
        simp [hmem, store_get_set]
      · simp [hmem, store_get_set, hx]

/-- The Phase-1 classification of a thread depends only on that thread's
own cache file. -/
theorem trustedLabels_congr (s1 s2 : Store) (i : String)
    (h : Store.get s1 i = Store.get s2 i) :
    trustedLabels s1 i = trustedLabels s2 i := by
  simp [trustedLabels, getCachedThread, h]

/-- A filterMap that hits `some` everywhere is a map. -/
theorem filterMap_eq_map_of_forall {α β : Type} (f : α → Option β) (g : α → β) :
    ∀ l : List α, (∀ a ∈ l, f a = some (g a)) → l.filterMap f = l.map g := by
  intro l
  induction l with
  | nil => intro h; rfl
  | cons x xs ih =>
    intro h
    rw [List.filterMap_cons, h x (List.mem_cons_self x xs), List.map_cons,
      ih (fun a ha => h a (List.mem_cons_of_mem x ha))]

/-- The cache-trusted results are the trusted sub-list of the working set
paired with the labels the run attributes to each thread. -/
theorem filterMap_trusted_eq (store : Store)
    (fetcher : String → Except (Option Nat) (Option (List String))) :
    ∀ l : List String,
      l.filterMap (fun i => (trustedLabels store i).map (fun ls => (i, ls))) =
        (l.filter (fun i => (trustedLabels store i).isSome)).map
          (fun i => (i, runLabels store fetcher i)) := by
  intro l
  induction l with
  | nil => rfl
  | cons x xs ih =>
    cases htr : trustedLabels store x with
    | none => simp [List.filterMap_cons, List.filter_cons, htr, ih]
    | some ls => simp [List.filterMap_cons, List.filter_cons, htr, ih, runLabels]

/-- flatMap only looks at its function on members. -/
theorem flatMap_congr_mem {α β : Type} (l : List α) (f g : α → List β)
    (h : ∀ a ∈ l, f a = g a) : l.flatMap f = l.flatMap g := by
  induction l with
  | nil => rfl
  | cons x xs ih =>
    rw [List.flatMap_cons, List.flatMap_cons, h x (List.mem_cons_self x xs),
      ih (fun a ha => h a (List.mem_cons_of_mem x ha))]

/-- Unrolling the Phase-3 count over one result. -/
theorem countOccs_cons (threads : List String) (a : LabelResult) (rest : List LabelResult) :
    countOccs threads (a :: rest) =
      (if threads.contains a.id then a.labels.filter (fun lab => lab != "INBOX") else []) ++
        countOccs threads rest := by
  by_cases h : a.id ∈ threads
  · simp [countOccs, List.filter_cons, h]
  · simp [countOccs, List.filter_cons, h]

/-- The Phase-3 count distributes over appended result lists. -/
theorem countOccs_append (threads : List String) (xs ys : List LabelResult) :
    countOccs threads (xs ++ ys) = countOccs threads xs ++ countOccs threads ys := by
  simp [countOccs, List.filter_append, List.flatMap_append]

/-- The Phase-3 count of results built from working-set ids: the non-INBOX
labels of each id, in order. -/
theorem countOccs_map_results (threads : List String) (g : String → List String) (b : Bool) :
    ∀ l : List String, (∀ i ∈ l, i ∈ threads) →
      countOccs threads
          ((l.map (fun i => (i, g i))).map (fun q => LabelResult.mk q.1 q.2 b)) =
        l.flatMap (fun i => (g i).filter (fun lab => lab != "INBOX")) := by
  intro l
  induction l with
  | nil => intro h; rfl
  | cons x xs ih =>
    intro h
    have hx : x ∈ threads := h x (List.mem_cons_self x xs)
    rw [List.map_cons, List.map_cons, countOccs_cons,
      ih (fun i hi => h i (List.mem_cons_of_mem x hi)), List.flatMap_cons]
    simp [hx]

/-- A cache file holding an array classifies by the stability predicate
alone. -/
theorem trustedLabels_of_get_arr (s : Store) (i : String) (ls : List String) (ts : String)
    (h : Store.get s i = some (.parsed ⟨.arr ls, ts⟩)) :
    trustedLabels s i = if isStableThread ls then some ls else none := by
  simp [trustedLabels, getCachedThread, h]

/-- After a run whose fetches all succeed with non-empty labels, every
working-set thread's cache entry is trusted, and its trusted labels are
exactly the labels the first run attributed to it. -/
theorem trustedLabels_after_run (store : Store) (threads : List String)
    (fetcher : String → Except (Option Nat) (Option (List String))) (now : String)
    (hok : ∀ i ∈ threads, ∃ o, fetcher i = .ok o ∧ o.getD [] ≠ []) :
    ∀ i ∈ threads,
      trustedLabels
          (writeFetched fetcher now store
            (threads.filter (fun j => !(trustedLabels store j).isSome))) i =
        some (runLabels store fetcher i) := by
  intro i hi
  by_cases hp : (trustedLabels store i).isSome
  · have hnotmem : i ∉ threads.filter (fun j => !(trustedLabels store j).isSome) := by
      intro hmem
      have := (List.mem_filter.mp hmem).2
      simp [hp] at this
    have hnc : (threads.filter (fun j => !(trustedLabels store j).isSome)).contains i
        = false := by
      simp only [List.elem_eq_mem, decide_eq_false_iff_not]
      exact hnotmem
    have hget : Store.get (writeFetched fetcher now store
        (threads.filter (fun j => !(trustedLabels store j).isSome))) i =
        Store.get store i := by
      rw [writeFetched_get, hnc]
      simp
    rw [trustedLabels_congr _ _ _ hget]
    obtain ⟨ls, hls⟩ := Option.isSome_iff_exists.mp hp
    simp [runLabels, hls]
  · have hmem : i ∈ threads.filter (fun j => !(trustedLabels store j).isSome) :=
      List.mem_filter.mpr ⟨hi, by simp [hp]⟩
    have hc : (threads.filter (fun j => !(trustedLabels store j).isSome)).contains i
        = true := by
      simp only [List.elem_eq_mem, decide_eq_true_eq]
      exact hmem
    have hget : Store.get (writeFetched fetcher now store
        (threads.filter (fun j => !(trustedLabels store j).isSome))) i =
        some (.parsed ⟨.arr (fetchedLabels fetcher i), now⟩) := by
      rw [writeFetched_get, hc]
      simp
    obtain ⟨o, ho, hne⟩ := hok i hi
    have hfl : fetchedLabels fetcher i ≠ [] := by
      have h2 : fetchedLabels fetcher i = o.getD [] := by simp [fetchedLabels, ho]
      rw [h2]; exact hne
    have hst : isStableThread (fetchedLabels fetcher i) = true := by
      simp only [isStableThread, decide_eq_true_eq]
      exact List.length_pos.mpr hfl
    have hpn : trustedLabels store i = none := Option.not_isSome_iff_eq_none.mp hp
    rw [trustedLabels_of_get_arr _ _ _ _ hget, hst]
    simp [runLabels, hpn]

/-- Full characterization of one aggregation run whose fetches all succeed:
the counted results are the cache-trusted threads (by label id) followed by
the fetched threads (by mapped label name), the cache gains every fetched
thread's entry, and the fetch counter is the queue length. -/
theorem run_ok_spec (store : Store) (threads : List String)
    (fetcher : String → Except (Option Nat) (Option (List String)))
    (labelIdToName : String → Option String) (now : String)
    (hok2 : ∀ i ∈ threads.filter (fun j => !(trustedLabels store j).isSome),
      ∃ o, fetcher i = .ok o) :
    listInboxLabelCounts store threads fetcher labelIdToName now = .ok
      ⟨countOccs threads
          ((threads.filterMap (fun i => (trustedLabels store i).map (fun ls => (i, ls)))).map
              (fun q => LabelResult.mk q.1 q.2 true) ++
            ((threads.filter (fun j => !(trustedLabels store j).isSome)).map (fun i =>
                (i, (fetchedLabels fetcher i).map
                  (fun lab => (labelIdToName lab).getD "undefined")))).map
              (fun q => LabelResult.mk q.1 q.2 false)),
        writeFetched fetcher now store (threads.filter (fun j => !(trustedLabels store j).isSome)),
        (threads.filter (fun j => !(trustedLabels store j).isSome)).length⟩ := by
  have hcont : ∀ i ∈ threads, threads.contains i = true := fun i hi => by
    simp [List.elem_eq_mem, hi]
  obtain ⟨hs, hc, hf⟩ := scanPhase_fold threads threads ⟨store, [], [], 0, 0⟩ hcont
  simp only [List.nil_append] at hs hc hf
  have hfetch := fetchPhase_ok fetcher labelIdToName now
    (threads.filter (fun j => !(trustedLabels store j).isSome)) hok2 ⟨store, [], 0⟩
  simp only [List.nil_append, Nat.zero_add] at hfetch
  simp only [listInboxLabelCounts, scanPhase, hs, hc, hf, hfetch]

/-- C7 counterexample: one uncached thread t1 whose fetch returns
["INBOX","L_B"], with labelIdToName binding L_B to the name "Label B".
The first run counts it by NAME ("Label B"); the second run, resolving it
from the now-primed cache, counts it by ID ("L_B").  The second run does
issue zero fetches, but the two Label Count Tables differ, so the
conjunction claimed fails. -/
theorem c7_counterexample :
    listInboxLabelCounts [] ["t1"] (fun _ => .ok (some ["INBOX", "L_B"]))
        (fun i => if i = "L_B" then some "Label B" else some i) "now1" =
      .ok ⟨["Label B"], [("t1", .parsed ⟨.arr ["INBOX", "L_B"], "now1"⟩)], 1⟩ ∧
    listInboxLabelCounts [("t1", .parsed ⟨.arr ["INBOX", "L_B"], "now1"⟩)] ["t1"]
        (fun _ => .ok (some ["INBOX", "L_B"]))
        (fun i => if i = "L_B" then some "Label B" else some i) "now2" =
      .ok ⟨["L_B"], [("t1", .parsed ⟨.arr ["INBOX", "L_B"], "now1"⟩)], 0⟩ ∧
    tableOf ["Label B"] "L_B" = 0 ∧ tableOf ["L_B"] "L_B" = 1 :=
  ⟨rfl, rfl, rfl, rfl⟩

/-- C7 (amended): with labelIdToName the identity on label ids (so cached
id-counting and fetched name-counting agree) and every thread's labels
non-empty (so every cache entry written is stable), running the aggregation
twice in succession with no remote changes succeeds both times, the second
run issues zero fetches, and the two Label Count Tables are identical. -/
theorem c7_idempotent_identity_names (store : Store) (threads : List String)
    (fetcher : String → Except (Option Nat) (Option (List String)))
    (labelIdToName : String → Option String) (now1 now2 : String)
    (hname : ∀ i, labelIdToName i = some i)
    (hok : ∀ i ∈ threads, ∃ o, fetcher i = .ok o ∧ o.getD [] ≠ []) :
    ∃ r1 r2,
      listInboxLabelCounts store threads fetcher labelIdToName now1 = .ok r1 ∧
      listInboxLabelCounts r1.store threads fetcher labelIdToName now2 = .ok r2 ∧
      r2.fetchCount = 0 ∧
      ∀ lab, tableOf r2.occs lab = tableOf r1.occs lab := by
  have hok2 : ∀ i ∈ threads.filter (fun j => !(trustedLabels store j).isSome),
      ∃ o, fetcher i = .ok o := fun i hi => by
    obtain ⟨o, ho, _⟩ := hok i (List.mem_filter.mp hi).1
    exact ⟨o, ho⟩
  have hr1 := run_ok_spec store threads fetcher labelIdToName now1 hok2
  have htr2 := trustedLabels_after_run store threads fetcher now1 hok
  have hfilter2 : threads.filter (fun j =>
      !(trustedLabels (writeFetched fetcher now1 store
          (threads.filter (fun j2 => !(trustedLabels store j2).isSome))) j).isSome) = [] := by
    rw [List.filter_eq_nil_iff]
    intro a ha
    rw [htr2 a ha]
    simp
  have hok2b : ∀ i ∈ threads.filter (fun j =>
      !(trustedLabels (writeFetched fetcher now1 store
          (threads.filter (fun j2 => !(trustedLabels store j2).isSome))) j).isSome),
      ∃ o, fetcher i = .ok o := by
    rw [hfilter2]
    intro i hi
    exact absurd hi (List.not_mem_nil i)
  have hr2 := run_ok_spec (writeFetched fetcher now1 store
      (threads.filter (fun j => !(trustedLabels store j).isSome)))
      threads fetcher labelIdToName now2 hok2b
  rw [hfilter2] at hr2
  simp only [List.map_nil, List.append_nil, List.length_nil] at hr2
  have hwf : writeFetched fetcher now2 (writeFetched fetcher now1 store
      (threads.filter (fun j => !(trustedLabels store j).isSome))) [] =
      writeFetched fetcher now1 store
        (threads.filter (fun j => !(trustedLabels store j).isSome)) := rfl
  rw [hwf] at hr2
  refine ⟨_, _, hr1, hr2, rfl, ?_⟩
  intro lab
  simp only [tableOf]
  have hA2 : threads.filterMap (fun i =>
      (trustedLabels (writeFetched fetcher now1 store
        (threads.filter (fun j => !(trustedLabels store j).isSome))) i).map
          (fun ls => (i, ls))) =
      threads.map (fun i => (i, runLabels store fetcher i)) :=
    filterMap_eq_map_of_forall _ _ threads (fun a ha => by rw [htr2 a ha]; rfl)
  have hocc2 : countOccs threads
      ((threads.map (fun i => (i, runLabels store fetcher i))).map
        (fun q => LabelResult.mk q.1 q.2 true)) =
      threads.flatMap (fun i =>
        (runLabels store fetcher i).filter (fun lab2 => lab2 != "INBOX")) :=
    countOccs_map_results threads (runLabels store fetcher) true threads (fun i hi => hi)
  have hA1 := filterMap_trusted_eq store fetcher threads
  have hB1names : ∀ i : String, (fetchedLabels fetcher i).map
      (fun lab2 => (labelIdToName lab2).getD "undefined") = fetchedLabels fetcher i := by
    intro i
    simp [hname]
  have hB1fix : (threads.filter (fun j => !(trustedLabels store j).isSome)).map (fun i =>
      (i, (fetchedLabels fetcher i).map (fun lab2 => (labelIdToName lab2).getD "undefined"))) =
      (threads.filter (fun j => !(trustedLabels store j).isSome)).map
        (fun i => (i, fetchedLabels fetcher i)) := by
    simp only [hB1names]
  have hocc1a : countOccs threads
      (((threads.filter (fun j => (trustedLabels store j).isSome)).map
        (fun i => (i, runLabels store fetcher i))).map
          (fun q => LabelResult.mk q.1 q.2 true)) =
      (threads.filter (fun j => (trustedLabels store j).isSome)).flatMap
        (fun i => (runLabels store fetcher i).filter (fun lab2 => lab2 != "INBOX")) :=
    countOccs_map_results threads (runLabels store fetcher) true _
      (fun i hi => (List.mem_filter.mp hi).1)
  have hocc1b : countOccs threads
      (((threads.filter (fun j => !(trustedLabels store j).isSome)).map
        (fun i => (i, fetchedLabels fetcher i))).map
          (fun q => LabelResult.mk q.1 q.2 false)) =
      (threads.filter (fun j => !(trustedLabels store j).isSome)).flatMap
        (fun i => (fetchedLabels fetcher i).filter (fun lab2 => lab2 != "INBOX")) :=
    countOccs_map_results threads (fetchedLabels fetcher) false _
      (fun i hi => (List.mem_filter.mp hi).1)
  have hrunfetch : (threads.filter (fun j => !(trustedLabels store j).isSome)).flatMap
      (fun i => (fetchedLabels fetcher i).filter (fun lab2 => lab2 != "INBOX")) =
      (threads.filter (fun j => !(trustedLabels store j).isSome)).flatMap
        (fun i => (runLabels store fetcher i).filter (fun lab2 => lab2 != "INBOX")) := by
    apply flatMap_congr_mem
    intro a ha
    have h2 := (List.mem_filter.mp ha).2
    have hnone : trustedLabels store a = none := by
      apply Option.not_isSome_iff_eq_none.mp
      simp at h2
      simp [h2]
    simp [runLabels, hnone]
  rw [hA2, hocc2, countOccs_append, hA1, hB1fix, hocc1a, hocc1b, hrunfetch,
    ← List.flatMap_append]
  exact (((List.filter_append_perm (fun j => (trustedLabels store j).isSome) threads).flatMap_right
    (fun i => (runLabels store fetcher i).filter (fun lab2 => lab2 != "INBOX"))).count_eq
      lab).symm

/-- Witness for C7: the amended idempotence at a concrete one-thread
working set with an identity label map and non-empty fetched labels. -/
theorem c7_idempotent_identity_names_witness :
    ∃ r1 r2,
      listInboxLabelCounts [] ["t1"] (fun _ => .ok (some ["INBOX", "L1"]))
        (fun i => some i) "now1" = .ok r1 ∧
      listInboxLabelCounts r1.store ["t1"] (fun _ => .ok (some ["INBOX", "L1"]))
        (fun i => some i) "now2" = .ok r2 ∧
      r2.fetchCount = 0 ∧
      ∀ lab, tableOf r2.occs lab = tableOf r1.occs lab :=
  c7_idempotent_identity_names [] ["t1"] (fun _ => .ok (some ["INBOX", "L1"]))
    (fun i => some i) "now1" "now2" (fun _ => rfl)
    (fun i _ => ⟨some ["INBOX", "L1"], rfl, by simp⟩)
